import Mathlib

/-!
Verification development for the stylelint-design-token-guard rule
(files src/index-like rule implementation, src/helpers.ts, src/types.ts).

The TypeScript sources are shallowly embedded below.  Conventions:

* JavaScript numbers are modelled as rationals; IEEE-754 rounding and the
  Infinity/NaN special values are not modelled (NaN is represented by
  Option.none, which is how the rule consumes it via the isNaN check).
  All magnitudes in scope come from finite decimal literals.
* A JavaScript object used as a string-keyed record is modelled as an
  association list whose list order is the object's for-in key iteration
  order.  Keys are unique in every catalog the rule can receive
  (JSON.parse output), and lookups take the first matching key.
* Truthiness tests on record lookups (category.tokens[k]) succeed exactly
  when the key is present and its string value is nonempty.
* The external value tokenizer (postcss-value-parser, an external
  collaborator per the spec) is modelled as a flat encoding of its node
  tree in visit (preorder, textual) order: maximal runs of non-break
  characters are word nodes, runs of spaces are space nodes, the divider
  characters comma, slash and colon are div nodes, a name directly
  followed by an opening parenthesis is a function node (serialized as
  the name plus the open parenthesis, its children following inline),
  and a closing parenthesis is encoded as its own close node so that
  serialization is concatenation.  The real walk visits the tree in
  exactly this flat order: returning false from the walk callback only
  prevents descending into a function node's children, and the rule
  returns false only on word nodes, which have no children, so no visit
  is skipped; the callback acts only on word nodes, and function, div,
  space and close nodes are all skipped by its type guard, so the flat
  encoding is behaviourally exact.  Whitespace around divider characters,
  which the real tokenizer stores in the div node's before and after
  fields, appears here as separate space nodes; both encodings serialize
  identically and carry the same word nodes at the same source indices,
  which are the only observables the rule reads.  String-literal syntax
  (quotes,
  escapes) and the special treatment of url() contents are not
  modelled; theorems whose truth could depend on them carry hypotheses
  keeping token names inside the modelled fragment.
* String.prototype.toLowerCase and the .length/substring operations are
  modelled on the character list of the string (all data in scope is
  ASCII, where JS UTF-16 units and characters coincide).
-/

namespace DesignTokenGuard

/-- Numeric value of a list of decimal digit characters, most significant first. -/
def digitsVal (ds : List Char) : Nat :=
  ds.foldl (fun acc c => acc * 10 + (c.toNat - '0'.toNat)) 0

/-- Integer power of ten as a rational, allowing negative exponents. -/
def pow10 (k : Int) : ℚ :=
  if 0 ≤ k then ((10 : ℚ) ^ k.toNat) else 1 / ((10 : ℚ) ^ (-k).toNat)

/-- Character class used by the float grammar. -/
def isDigitChar (c : Char) : Bool := c.isDigit

/-- Sign step of the float grammar: strips one optional leading sign. -/
def splitSign (cs : List Char) : ℚ × List Char :=
  match cs with
  | c :: t => if c = '+' then (1, t) else if c = '-' then (-1, t) else (1, cs)
  | [] => (1, cs)

/-- Fraction step of the float grammar: consumes a dot and the digits after
it when the dot is present. -/
def splitFrac (cs : List Char) : List Char × List Char :=
  match cs with
  | c :: t => if c = '.' then (t.takeWhile isDigitChar, t.dropWhile isDigitChar) else ([], cs)
  | [] => ([], cs)

/-- Exponent step of the float grammar: an e or E followed by an optional
sign and at least one digit contributes a decimal exponent, anything else
contributes zero (the JS grammar takes the longest valid literal). -/
def expValOf (cs : List Char) : Int :=
  match cs with
  | c :: rest =>
    if c = 'e' ∨ c = 'E' then
      let esignAndRest : Int × List Char :=
        match rest with
        | d :: t => if d = '+' then (1, t) else if d = '-' then (-1, t) else (1, rest)
        | [] => (1, rest)
      let eds := esignAndRest.2.takeWhile isDigitChar
      if eds = [] then 0 else esignAndRest.1 * (digitsVal eds : Int)
    else 0
  | [] => 0

/-- Leading-prefix float parsing over a character list, modelling the
JavaScript parseFloat grammar on the inputs in scope: an optional sign,
integer digits, an optional fraction introduced by a dot, and an optional
exponent part that is consumed only when well formed.  When no digit is
consumed the JS function returns NaN, modelled as none.  Leading
whitespace skipping and the Infinity literal are not modelled (inputs are
space-free substrings of CSS words). -/
def parseFloatChars (cs : List Char) : Option ℚ :=
  let sign := (splitSign cs).1
  let cs1 := (splitSign cs).2
  let intDs := cs1.takeWhile isDigitChar
  let cs2 := cs1.dropWhile isDigitChar
  let fracDs := (splitFrac cs2).1
  let cs3 := (splitFrac cs2).2
  if intDs = [] ∧ fracDs = [] then none
  else
    let mantissa : ℚ := (digitsVal (intDs ++ fracDs) : ℚ) * pow10 (-(fracDs.length : Int))
    some (sign * mantissa * pow10 (expValOf cs3))

/-- parseFloat on a string. -/
def parseFloat (s : String) : Option ℚ := parseFloatChars s.data

/-- Embedding of hasPxUnit from src/helpers.ts: true when the string ends
with the two characters p x. -/
def hasPxUnit (s : String) : Bool :=
  match s.data.reverse with
  | 'x' :: 'p' :: _ => true
  | _ => false

/-- Embedding of extractPxValue from src/helpers.ts: without the px suffix,
the literal zero maps to 0 and everything else to none; with the suffix,
the substring before the last two characters is given to parseFloat, and a
NaN result is returned as none. -/
def extractPxValue (pxValue : String) : Option ℚ :=
  if hasPxUnit pxValue = false then
    if pxValue = "0" then some 0 else none
  else
    parseFloat (String.mk (pxValue.data.take (pxValue.data.length - 2)))

/-- Embedding of the TokenCategory interface from src/types.ts.  The tokens
record is kept in for-in key iteration order. -/
structure TokenCategory where
  properties : List String
  tokens : List (String × String)
deriving DecidableEq

/-- Record lookup on the tokens object. -/
def lookupTok (ts : List (String × String)) (k : String) : Option String :=
  match ts.find? (fun kv => kv.1 == k) with
  | some kv => some kv.2
  | none => none

/-- Record lookup combined with the JS truthiness test the rule applies to
its result: some value exactly when the key is present with a nonempty
token name. -/
def truthyLookup (ts : List (String × String)) (k : String) : Option String :=
  match lookupTok ts k with
  | some v => if v = "" then none else some v
  | none => none

/-- One node of a parsed value, mirroring the postcss-value-parser node
fields the rule reads: the type tag, the literal text, and the character
offset of the node inside the value string. -/
structure ValueNode where
  type : String
  value : String
  sourceIndex : Nat
deriving DecidableEq

/-- Class of a character for the tokenizer model: space or not. -/
def charIsSpace (c : Char) : Bool := c == ' '

/-- Divider characters of the value grammar (comma, slash, colon). -/
def isDivChar (c : Char) : Bool := c == ',' || c == '/' || c == ':'

/-- Characters that end a word run: spaces, parentheses and dividers. -/
def isWordBreak (c : Char) : Bool := charIsSpace c || c == '(' || c == ')' || isDivChar c

/-- Characters a word node may contain. -/
def wordChar (c : Char) : Bool := !isWordBreak c

/-- Fuelled tokenizer loop producing the flat preorder node encoding: space
runs, close and div single characters, functions (a possibly empty name
directly followed by an open parenthesis), and word runs. -/
def valueParseAux : Nat → List Char → Nat → List ValueNode
  | 0, _, _ => []
  | _ + 1, [], _ => []
  | fuel + 1, c :: cs, i =>
    if charIsSpace c then
      let run := cs.takeWhile charIsSpace
      ⟨"space", String.mk (c :: run), i⟩ ::
        valueParseAux fuel (cs.dropWhile charIsSpace) (i + 1 + run.length)
    else if c = ')' then
      ⟨"close", ")", i⟩ :: valueParseAux fuel cs (i + 1)
    else if isDivChar c then
      ⟨"div", String.mk [c], i⟩ :: valueParseAux fuel cs (i + 1)
    else if c = '(' then
      ⟨"function", "", i⟩ :: valueParseAux fuel cs (i + 1)
    else
      let run := cs.takeWhile wordChar
      let rest := cs.dropWhile wordChar
      if rest.head? = some '(' then
        ⟨"function", String.mk (c :: run), i⟩ ::
          valueParseAux fuel rest.tail (i + 1 + run.length + 1)
      else
        ⟨"word", String.mk (c :: run), i⟩ :: valueParseAux fuel rest (i + 1 + run.length)

/-- Model of the external value tokenizer applied to a declaration value. -/
def valueParse (s : String) : List ValueNode :=
  valueParseAux s.data.length s.data 0

/-- Characters a node contributes to the serialized value: a function node
serializes as its name followed by the open parenthesis it owns, and every
other node as its text (a close node's text is the closing parenthesis). -/
def nodeChars (n : ValueNode) : List Char :=
  if n.type = "function" then n.value.data ++ ['('] else n.value.data

/-- Character stream of a node list, used by toString. -/
def charsOf (ns : List ValueNode) : List Char :=
  (ns.map nodeChars).flatten

/-- Model of parsedValue.toString(): concatenation of every node's text. -/
def serializeNodes (ns : List ValueNode) : String :=
  String.mk (charsOf ns)

/-- ASCII model of String.prototype.toLowerCase. -/
def toLowerStr (s : String) : String :=
  String.mk (s.data.map Char.toLower)

/-- Embedding of the exactMatch message template of the rule. -/
def exactMatchMessage (tokenName originalValue propertyName : String) : String :=
  "Design token " ++ tokenName ++ " expected for property " ++ propertyName ++ ": " ++ originalValue

/-- Model of Array.prototype.join with a comma-space separator. -/
def joinCommaSep : List String → String
  | [] => ""
  | [x] => x
  | x :: xs => x ++ ", " ++ joinCommaSep xs

/-- Embedding of the closeMatch message template of the rule; the trailing
clause is appended only when the suggestion string is truthy (nonempty). -/
def closeMatchMessage (tokenName tokenPxValue originalValue otherSuggestions : String) : String :=
  "Consider token: " ++ tokenName ++ " (\x27" ++ tokenPxValue ++ "\x27) for current value \"" ++
    originalValue ++ "\"." ++
    (if otherSuggestions = "" then "" else " Other close matches: " ++ otherSuggestions ++ ".")

/-- One stylelint report call, with the fields the rule fills in.  The rule
passes no severity for exact matches, which makes stylelint use the default
error severity, and passes warning explicitly for close matches. -/
structure Diagnostic where
  message : String
  index : Nat
  endIndex : Nat
  severity : String
deriving DecidableEq

/-- One close-match candidate pushed by the close-match search. -/
structure CloseCand where
  tokenPxValue : String
  tokenName : String
  diff : ℚ
deriving DecidableEq

/-- Candidate test for one tokens entry, mirroring the body of the close
match loop: only keys with the px unit or the literal zero are compared,
the key magnitude must parse, and the absolute difference must be strictly
positive and at most the margin. -/
def closeCandidate (m margin : ℚ) (kv : String × String) : Option CloseCand :=
  if hasPxUnit kv.1 || kv.1 == "0" then
    match extractPxValue kv.1 with
    | some t =>
      if 0 < |m - t| ∧ |m - t| ≤ margin then some ⟨kv.1, kv.2, |m - t|⟩ else none
    | none => none
  else none

/-- The close-match loop over the tokens record in key iteration order. -/
def collectCloseMatches (ts : List (String × String)) (m margin : ℚ) : List CloseCand :=
  ts.filterMap (closeCandidate m margin)

/-- Insertion step of the stable sort model: a new element goes in front of
the first element whose diff is greater than or equal to its own. -/
def insertByDiff (c : CloseCand) : List CloseCand → List CloseCand
  | [] => [c]
  | x :: xs => if c.diff ≤ x.diff then c :: x :: xs else x :: insertByDiff c xs

/-- Model of the JS Array.prototype.sort call with the comparator on diff:
a stable sort ascending by diff. -/
def sortByDiff : List CloseCand → List CloseCand
  | [] => []
  | x :: xs => insertByDiff x (sortByDiff xs)

/-- String listing the non-primary candidates, as built from
closeMatches.slice(1) by the rule. -/
def otherSuggestionsString (rest : List CloseCand) : String :=
  joinCommaSep (rest.map (fun m => m.tokenName ++ " (\x27" ++ m.tokenPxValue ++ "\x27)"))

/-- Result of running the walk callback on one node: the node text after a
possible fix, whether the fix branch ran, and the reports emitted. -/
structure NodeEval where
  newValue : String
  fixed : Bool
  diags : List Diagnostic
deriving DecidableEq

/-- Callback outcome for a node the rule skips. -/
def skipEval (node : ValueNode) : NodeEval :=
  ⟨node.value, false, []⟩

/-- Embedding of the walk callback body of ruleImpl for one value node and
one category: the word/px/zero applicability guards, the exact-match branch
with its fix, and the close-match search. -/
def evalNode (cat : TokenCategory) (margin : ℚ) (fix : Bool) (propertyName : String)
    (valueOffset : Nat) (node : ValueNode) : NodeEval :=
  let originalValue := node.value
  let isPxValueNode := hasPxUnit originalValue
  let isUnitlessZeroNode := originalValue == "0"
  if node.type != "word" || (!isPxValueNode && !isUnitlessZeroNode) then skipEval node
  else if isUnitlessZeroNode && (truthyLookup cat.tokens "0").isNone then skipEval node
  else
    let numericPxValue := extractPxValue originalValue
    if !isUnitlessZeroNode && numericPxValue.isNone then skipEval node
    else
      let valueNodeStartIndexInDecl := valueOffset + node.sourceIndex
      let valueNodeEndIndexInDecl := valueNodeStartIndexInDecl + originalValue.length
      match truthyLookup cat.tokens originalValue with
      | some tokenToSuggest =>
        let doFix := fix && (node.value != tokenToSuggest)
        ⟨if doFix then tokenToSuggest else node.value, doFix,
          [⟨exactMatchMessage tokenToSuggest originalValue propertyName,
            valueNodeStartIndexInDecl, valueNodeEndIndexInDecl, "error"⟩]⟩
      | none =>
        match numericPxValue with
        | some m =>
          if 0 < margin then
            match sortByDiff (collectCloseMatches cat.tokens m margin) with
            | [] => skipEval node
            | bestMatch :: rest =>
              ⟨node.value, false,
                [⟨closeMatchMessage bestMatch.tokenName bestMatch.tokenPxValue originalValue
                    (otherSuggestionsString rest),
                  valueNodeStartIndexInDecl, valueNodeEndIndexInDecl, "warning"⟩]⟩
        else skipEval node
        | none => skipEval node

/-- A postcss declaration, with the fields the rule reads: property name,
value text, the raws.between separator, and whether source position
information is present. -/
structure Decl where
  prop : String
  value : String
  between : String
  hasSource : Bool
deriving DecidableEq

/-- Start offset of the value inside the declaration text, as computed by
the rule from the property length and the between separator (a falsy
between falls back to a single colon). -/
def valueOffsetOf (d : Decl) : Nat :=
  d.prop.length + (if d.between = "" then ":" else d.between).length

/-- Diagnostics produced by the walk of a node list against one category:
every node is visited in parse order and contributes its own callback
reports; a false return from the callback gates only descent into a
node's children, and the rule returns false only on childless word nodes,
so no node visit is skipped. -/
def walkDiags (cat : TokenCategory) (margin : ℚ) (fix : Bool) (propertyName : String)
    (off : Nat) (nodes : List ValueNode) : List Diagnostic :=
  (nodes.map (fun n => (evalNode cat margin fix propertyName off n).diags)).flatten

/-- Node list after the walk of a node list against one category, with the
fix branch's in-place text updates applied. -/
def walkNodes (cat : TokenCategory) (margin : ℚ) (fix : Bool) (propertyName : String)
    (off : Nat) (nodes : List ValueNode) : List ValueNode :=
  nodes.map (fun n => { n with value := (evalNode cat margin fix propertyName off n).newValue })

/-- Whether any node of the walk took the fix branch (and therefore
assigned a reserialized value string to the declaration). -/
def walkAnyFixed (cat : TokenCategory) (margin : ℚ) (fix : Bool) (propertyName : String)
    (off : Nat) (nodes : List ValueNode) : Bool :=
  nodes.any (fun n => (evalNode cat margin fix propertyName off n).fixed)

/-- Processing of one applicable-or-not category against one declaration:
when the category lists the property, the value is parsed and every node
is run through the walk callback; the declaration value is reserialized
exactly when some node took the fix branch. -/
def processCategory (margin : ℚ) (fix : Bool) (propertyName : String) (d : Decl)
    (cat : TokenCategory) : Decl × List Diagnostic :=
  if cat.properties.contains propertyName then
    let off := valueOffsetOf d
    let nodes := valueParse d.value
    (if walkAnyFixed cat margin fix propertyName off nodes then
      { d with value := serializeNodes (walkNodes cat margin fix propertyName off nodes) }
     else d,
     walkDiags cat margin fix propertyName off nodes)
  else (d, [])

/-- The for-in loop over catalog categories for one declaration, threading
the (possibly fixed) declaration from category to category. -/
def processCats (margin : ℚ) (fix : Bool) (propertyName : String) :
    List TokenCategory → Decl → Decl × List Diagnostic
  | [], d => (d, [])
  | cat :: rest, d =>
    let r := processCategory margin fix propertyName d cat
    let r2 := processCats margin fix propertyName rest r.1
    (r2.1, r.2 ++ r2.2)

/-- Embedding of the walkDecls callback: declarations without a property,
value, or source position are skipped; otherwise every catalog category is
visited in key iteration order with the lowercased property name. -/
def processDecl (cats : List TokenCategory) (margin : ℚ) (fix : Bool) (d : Decl) :
    Decl × List Diagnostic :=
  if d.prop == "" || d.value == "" || !d.hasSource then (d, [])
  else processCats margin fix (toLowerStr d.prop) cats d

/-- A category as loaded from JSON before validation: either field may be
absent (undefined). -/
structure RawCategory where
  properties : Option (List String)
  tokens : Option (List (String × String))
deriving DecidableEq

/-- Embedding of the catalog shape validation loop: the first category
missing its properties or tokens field raises the descriptive error the
rule throws; otherwise the catalog is passed through unchanged. -/
def validateCatalog : List (String × RawCategory) → Except String (List TokenCategory)
  | [] => .ok []
  | (k, rc) :: rest =>
    match rc.properties, rc.tokens with
    | some ps, some ts =>
      match validateCatalog rest with
      | .ok cats => .ok (⟨ps, ts⟩ :: cats)
      | .error e => .error e
    | _, _ =>
      .error ("Token category \x27" ++ k ++ "\x27 is missing \x27properties\x27 or \x27tokens\x27 field.")

/-- Outcome of one linting pass: the document-level warnings issued via
result.warn, the per-value reports, and the declarations after fixing. -/
structure PassResult where
  warnings : List String
  diagnostics : List Diagnostic
  decls : List Decl
deriving DecidableEq

/-- Embedding of the body of ruleImpl after option validation: the loaded
catalog is shape-validated (a failure is warned once and aborts the pass
with no matching), an empty catalog is a silent no-op, and otherwise every
declaration is processed independently in document order. -/
def runPass (raw : List (String × RawCategory)) (margin : ℚ) (fix : Bool)
    (decls : List Decl) : PassResult :=
  match validateCatalog raw with
  | .error e =>
    ⟨["Error loading or parsing custom tokens file: " ++ e], [], decls⟩
  | .ok cats =>
    if cats.isEmpty then ⟨[], [], decls⟩
    else
      let results := decls.map (processDecl cats margin fix)
      ⟨[], (results.map Prod.snd).flatten, results.map Prod.fst⟩

/-! Helper lemmas about the embedded definitions. -/

theorem extractPxValue_px (s : String) (h : hasPxUnit s = true) :
    extractPxValue s = parseFloat (String.mk (s.data.take (s.data.length - 2))) := by
  simp [extractPxValue, h]

theorem extractPxValue_not_px (s : String) (h : hasPxUnit s = false) :
    extractPxValue s = if s = "0" then some 0 else none := by
  simp [extractPxValue, h]

theorem extractPxValue_some_shape (s : String) (t : ℚ) (h : extractPxValue s = some t) :
    (hasPxUnit s || s == "0") = true := by
  by_cases hp : hasPxUnit s = true
  · simp [hp]
  · rw [Bool.not_eq_true] at hp
    rw [extractPxValue_not_px s hp] at h
    by_cases hz : s = "0"
    · simp [hz]
    · simp [hz] at h

/-- C8: the Pixel-Value Reader general clauses. -/
theorem claim_C8 (s : String) (q : ℚ) :
    extractPxValue "0" = some 0 ∧
    extractPxValue "abcpx" = none ∧
    extractPxValue "10%" = none ∧
    (hasPxUnit s = false → s ≠ "0" → extractPxValue s = none) ∧
    (hasPxUnit s = true →
      parseFloat (String.mk (s.data.take (s.data.length - 2))) = some q →
      extractPxValue s = some q) := by
  refine ⟨by with_unfolding_all decide, by with_unfolding_all decide,
    by with_unfolding_all decide, ?_, ?_⟩
  · intro h hz
    simp [extractPxValue_not_px s h, hz]
  · intro h hq
    rw [extractPxValue_px s h, hq]

/-- C8 witness: the general px clause applied at the concrete input 16px. -/
theorem claim_C8_witness :
    hasPxUnit "16px" = true ∧
    parseFloat (String.mk ("16px".data.take ("16px".data.length - 2))) = some 16 ∧
    extractPxValue "16px" = some 16 :=
  ⟨by with_unfolding_all decide, by with_unfolding_all decide,
    (claim_C8 "16px" 16).2.2.2.2 (by with_unfolding_all decide)
      (by with_unfolding_all decide)⟩

theorem takeWhile_junk_nil (p : Char → Bool) (junk : List Char)
    (hj : ∀ c, junk.head? = some c → p c = false) :
    junk.takeWhile p = [] := by
  cases junk with
  | nil => rfl
  | cons c t => simp [List.takeWhile, hj c rfl]

theorem dropWhile_junk_id (p : Char → Bool) (junk : List Char)
    (hj : ∀ c, junk.head? = some c → p c = false) :
    junk.dropWhile p = junk := by
  cases junk with
  | nil => rfl
  | cons c t => simp [List.dropWhile, hj c rfl]

theorem parseFloat_digits_junk (ds junk : List Char) (hne : ds ≠ [])
    (hds : ∀ c ∈ ds, c.isDigit = true)
    (hj : ∀ c, junk.head? = some c → c.isDigit = false ∧ c ≠ '.' ∧ c ≠ 'e' ∧ c ≠ 'E') :
    parseFloatChars (ds ++ junk) = some ((digitsVal ds : ℚ)) := by
  obtain ⟨d, ds', rfl⟩ : ∃ d ds', ds = d :: ds' := by
    cases ds with
    | nil => exact absurd rfl hne
    | cons d ds' => exact ⟨d, ds', rfl⟩
  have hd : d.isDigit = true := hds d (by simp)
  have hdp : d ≠ '+' := by rintro rfl; simp at hd
  have hdm : d ≠ '-' := by rintro rfl; simp at hd
  have hsign : splitSign ((d :: ds') ++ junk) = (1, (d :: ds') ++ junk) := by
    simp [splitSign, hdp, hdm]
  have hdig : ∀ a ∈ d :: ds', isDigitChar a = true := by
    intro a ha; exact hds a ha
  have htake : ((d :: ds') ++ junk).takeWhile isDigitChar = d :: ds' := by
    rw [List.takeWhile_append_of_pos hdig,
      takeWhile_junk_nil isDigitChar junk (fun c hc => (hj c hc).1), List.append_nil]
  have hdrop : ((d :: ds') ++ junk).dropWhile isDigitChar = junk := by
    rw [List.dropWhile_append_of_pos hdig,
      dropWhile_junk_id isDigitChar junk (fun c hc => (hj c hc).1)]
  have hfrac : splitFrac junk = ([], junk) := by
    cases junk with
    | nil => rfl
    | cons c t => simp [splitFrac, (hj c rfl).2.1]
  have hexp : expValOf junk = 0 := by
    cases junk with
    | nil => rfl
    | cons c t => simp [expValOf, (hj c rfl).2.2.1, (hj c rfl).2.2.2]
  have h10 : pow10 0 = 1 := by norm_num [pow10]
  simp only [parseFloatChars, hsign, htake, hdrop, hfrac, hexp, h10]
  simp [h10]

/-- C10: a px value whose pre-suffix remainder starts with digits followed
by junk that stops the float grammar parses to the leading digit value, and
such a value participates in close-match evaluation. -/
theorem claim_C10 (ds junk : List Char) (hne : ds ≠ [])
    (hds : ∀ c ∈ ds, c.isDigit = true)
    (hj : ∀ c, junk.head? = some c → c.isDigit = false ∧ c ≠ '.' ∧ c ≠ 'e' ∧ c ≠ 'E') :
    extractPxValue (String.mk ((ds ++ junk) ++ ['p', 'x'])) = some ((digitsVal ds : ℚ)) ∧
    extractPxValue "12abcpx" = some 12 ∧
    evalNode ⟨["margin"], [("13px", "--a")]⟩ 2 false "margin" 8 ⟨"word", "12abcpx", 0⟩ =
      ⟨"12abcpx", false,
        [⟨"Consider token: --a (\x2713px\x27) for current value \"12abcpx\".", 8, 15, "warning"⟩]⟩ := by
  refine ⟨?_, by with_unfolding_all decide, by with_unfolding_all decide⟩
  have hpx : hasPxUnit (String.mk ((ds ++ junk) ++ ['p', 'x'])) = true := by
    simp [hasPxUnit, List.reverse_append]
  rw [extractPxValue_px _ hpx]
  have hdata : (String.mk ((ds ++ junk) ++ ['p', 'x'])).data = (ds ++ junk) ++ ['p', 'x'] := rfl
  rw [hdata]
  have hlen : ((ds ++ junk) ++ ['p', 'x']).length - 2 = (ds ++ junk).length := by
    simp [Nat.add_sub_cancel]
    omega
  rw [hlen, List.take_left' rfl]
  exact parseFloat_digits_junk ds junk hne hds hj

/-- C10 witness: the general clause applied at the concrete input 12abcpx. -/
theorem claim_C10_witness :
    (['1', '2'] : List Char) ≠ [] ∧
    extractPxValue (String.mk (((['1', '2'] : List Char) ++ ['a', 'b', 'c']) ++ ['p', 'x'])) =
      some ((digitsVal ['1', '2'] : ℚ)) :=
  ⟨by decide,
    (claim_C10 ['1', '2'] ['a', 'b', 'c'] (by decide) (by decide)
      (by intro c hc; simp at hc; subst hc; decide)).1⟩

/-- C3: close-match candidate qualification, plus the margin-zero mode. -/
theorem claim_C3 (m margin : ℚ) (k name : String) (t : ℚ) (ht : extractPxValue k = some t) :
    closeCandidate m margin (k, name) =
      (if 0 < |m - t| ∧ |m - t| ≤ margin then some ⟨k, name, |m - t|⟩ else none) ∧
    (∀ cat fix pn off node,
      ((evalNode cat 0 fix pn off node).diags.all (fun d => d.severity != "warning")) = true) := by
  constructor
  · simp only [closeCandidate, extractPxValue_some_shape k t ht, if_true]
    rw [ht]
  · intro cat fix pn off node
    simp only [evalNode, skipEval]
    repeat' split
    all_goals (first | rfl | simp_all [lt_irrefl])

/-- C3 witness: qualification at a concrete candidate with diff 2. -/
theorem claim_C3_witness :
    extractPxValue "14px" = some 14 ∧
    closeCandidate 16 2 ("14px", "--a") =
      (if 0 < |(16 : ℚ) - 14| ∧ |(16 : ℚ) - 14| ≤ 2 then some ⟨"14px", "--a", |(16 : ℚ) - 14|⟩
       else none) :=
  ⟨by with_unfolding_all decide,
    (claim_C3 16 2 "14px" "--a" 14 (by with_unfolding_all decide)).1⟩

theorem mem_insertByDiff (c x : CloseCand) (l : List CloseCand) :
    x ∈ insertByDiff c l ↔ x = c ∨ x ∈ l := by
  induction l with
  | nil => simp [insertByDiff]
  | cons y ys ih =>
    by_cases h : c.diff ≤ y.diff
    · simp [insertByDiff, h]
    · simp [insertByDiff, h, ih]
      tauto

theorem pairwise_insertByDiff (c : CloseCand) (l : List CloseCand)
    (h : l.Pairwise (fun a b => a.diff ≤ b.diff)) :
    (insertByDiff c l).Pairwise (fun a b => a.diff ≤ b.diff) := by
  induction l with
  | nil => simp [insertByDiff]
  | cons y ys ih =>
    rw [List.pairwise_cons] at h
    by_cases hc : c.diff ≤ y.diff
    · rw [insertByDiff, if_pos hc, List.pairwise_cons]
      refine ⟨?_, List.pairwise_cons.2 h⟩
      intro a ha
      rcases List.mem_cons.1 ha with rfl | ha
      · exact hc
      · exact le_trans hc (h.1 a ha)
    · rw [insertByDiff, if_neg hc, List.pairwise_cons]
      refine ⟨?_, ih h.2⟩
      intro a ha
      rcases (mem_insertByDiff c a ys).1 ha with rfl | ha
      · exact le_of_not_le hc
      · exact h.1 a ha

theorem sortByDiff_pairwise (l : List CloseCand) :
    (sortByDiff l).Pairwise (fun a b => a.diff ≤ b.diff) := by
  induction l with
  | nil => exact List.Pairwise.nil
  | cons x xs ih => exact pairwise_insertByDiff x (sortByDiff xs) ih

theorem filter_insertByDiff_eq (c : CloseCand) (l : List CloseCand) (d : ℚ) (hc : c.diff = d) :
    (insertByDiff c l).filter (fun x => decide (x.diff = d)) =
      c :: l.filter (fun x => decide (x.diff = d)) := by
  induction l with
  | nil => simp [insertByDiff, List.filter, hc]
  | cons y ys ih =>
    by_cases h : c.diff ≤ y.diff
    · rw [insertByDiff, if_pos h]
      simp [List.filter, hc]
    · have hy : y.diff ≠ d := by
        rw [← hc]
        exact ne_of_lt (lt_of_not_le h)
      rw [insertByDiff, if_neg h]
      simp [List.filter, hy, ih]

theorem filter_insertByDiff_ne (c : CloseCand) (l : List CloseCand) (d : ℚ) (hc : c.diff ≠ d) :
    (insertByDiff c l).filter (fun x => decide (x.diff = d)) =
      l.filter (fun x => decide (x.diff = d)) := by
  induction l with
  | nil => simp [insertByDiff, List.filter, hc]
  | cons y ys ih =>
    by_cases h : c.diff ≤ y.diff
    · rw [insertByDiff, if_pos h]
      simp [List.filter, hc]
    · rw [insertByDiff, if_neg h]
      by_cases hy : y.diff = d
      · simp [List.filter, hy, ih]
      · simp [List.filter, hy, ih]

theorem sortByDiff_filter_stable (l : List CloseCand) (d : ℚ) :
    (sortByDiff l).filter (fun x => decide (x.diff = d)) =
      l.filter (fun x => decide (x.diff = d)) := by
  induction l with
  | nil => rfl
  | cons x xs ih =>
    by_cases hx : x.diff = d
    · rw [sortByDiff, filter_insertByDiff_eq x (sortByDiff xs) d hx, ih]
      simp [List.filter, hx]
    · rw [sortByDiff, filter_insertByDiff_ne x (sortByDiff xs) d hx, ih]
      simp [List.filter, hx]

/-- C4: the close-match candidate ordering is a stable ascending sort by
diff (sorted output, and every equal-diff class keeps its catalog
iteration order), the lowest-diff candidate is the primary suggestion with
the rest listed in sorted order, and a single candidate produces no
trailing clause. -/
theorem claim_C4 :
    (∀ l : List CloseCand, (sortByDiff l).Pairwise (fun a b => a.diff ≤ b.diff)) ∧
    (∀ (l : List CloseCand) (d : ℚ),
      (sortByDiff l).filter (fun x => decide (x.diff = d)) =
        l.filter (fun x => decide (x.diff = d))) ∧
    evalNode ⟨["margin"], [("14px", "--a"), ("18px", "--b")]⟩ 2 false "margin" 8
        ⟨"word", "16px", 0⟩ =
      ⟨"16px", false,
        [⟨"Consider token: --a (\x2714px\x27) for current value \"16px\". Other close matches: --b (\x2718px\x27).",
          8, 12, "warning"⟩]⟩ ∧
    evalNode ⟨["margin"], [("14px", "--a")]⟩ 2 false "margin" 8 ⟨"word", "16px", 0⟩ =
      ⟨"16px", false,
        [⟨"Consider token: --a (\x2714px\x27) for current value \"16px\".", 8, 12, "warning"⟩]⟩ :=
  ⟨sortByDiff_pairwise, sortByDiff_filter_stable,
    by with_unfolding_all decide, by with_unfolding_all decide⟩

theorem truthyLookup_none_of_lookup_none (ts : List (String × String)) (k : String)
    (h : lookupTok ts k = none) : truthyLookup ts k = none := by
  simp [truthyLookup, h]

/-- C6: a value node whose text is exactly the literal zero is skipped
without any diagnostic when the category has no truthy zero token, and in
every case its evaluation is either a skip or the exact-match result, never
a close match. -/
theorem claim_C6 (cat : TokenCategory) (margin : ℚ) (fix : Bool) (pn : String) (off : Nat)
    (node : ValueNode) (hw : node.type = "word") (hz : node.value = "0") :
    (lookupTok cat.tokens "0" = none → evalNode cat margin fix pn off node = skipEval node) ∧
    (evalNode cat margin fix pn off node = skipEval node ∨
      ∃ t, truthyLookup cat.tokens "0" = some t ∧
        evalNode cat margin fix pn off node =
          ⟨if fix && (node.value != t) then t else node.value, fix && (node.value != t),
            [⟨exactMatchMessage t "0" pn, off + node.sourceIndex, off + node.sourceIndex + 1,
              "error"⟩]⟩) := by
  obtain ⟨ty, v, idx⟩ := node
  simp only at hw hz
  subst hw; subst hz
  constructor
  · intro h
    simp [evalNode, truthyLookup_none_of_lookup_none cat.tokens "0" h, hasPxUnit]
  · cases htl : truthyLookup cat.tokens "0" with
    | none => exact Or.inl (by simp [evalNode, htl, hasPxUnit])
    | some t =>
      refine Or.inr ⟨t, rfl, ?_⟩
      simp [evalNode, htl, hasPxUnit, skipEval, extractPxValue, exactMatchMessage]
      decide

/-- C6 witness: the two concrete zero-node behaviours. -/
theorem claim_C6_witness :
    lookupTok [("2px", "--a")] "0" = none ∧
    evalNode ⟨["margin"], [("2px", "--a")]⟩ 2 false "margin" 8 ⟨"word", "0", 0⟩ =
      skipEval ⟨"word", "0", 0⟩ :=
  ⟨by decide,
    (claim_C6 ⟨["margin"], [("2px", "--a")]⟩ 2 false "margin" 8 ⟨"word", "0", 0⟩ rfl rfl).1
      (by decide)⟩

theorem validateCatalog_error_of_bad (raw : List (String × RawCategory))
    (h : ∃ e ∈ raw, e.2.properties = none ∨ e.2.tokens = none) :
    ∃ msg, validateCatalog raw = .error msg := by
  induction raw with
  | nil => simp at h
  | cons e rest ih =>
    obtain ⟨k, rc⟩ := e
    cases hp : rc.properties with
    | none =>
      exact ⟨"Token category \x27" ++ k ++ "\x27 is missing \x27properties\x27 or \x27tokens\x27 field.",
        by simp [validateCatalog, hp]⟩
    | some ps =>
      cases htk : rc.tokens with
      | none =>
        exact ⟨"Token category \x27" ++ k ++ "\x27 is missing \x27properties\x27 or \x27tokens\x27 field.",
          by simp [validateCatalog, hp, htk]⟩
      | some ts =>
        have hrest : ∃ e ∈ rest, e.2.properties = none ∨ e.2.tokens = none := by
          rcases h with ⟨e', he', hbad⟩
          rcases List.mem_cons.1 he' with rfl | he'
          · simp only at hbad
            rw [hp, htk] at hbad
            rcases hbad with h1 | h1 <;> exact absurd h1 (by simp)
          · exact ⟨e', he', hbad⟩
        obtain ⟨msg, hmsg⟩ := ih hrest
        exact ⟨msg, by simp [validateCatalog, hp, htk, hmsg]⟩

/-- C5: a catalog containing a category with an undefined properties or
tokens field makes the whole pass abort with a single warning, emitting no
per-value diagnostics and leaving every declaration untouched. -/
theorem claim_C5 (raw : List (String × RawCategory)) (margin : ℚ) (fix : Bool)
    (decls : List Decl) (h : ∃ e ∈ raw, e.2.properties = none ∨ e.2.tokens = none) :
    (runPass raw margin fix decls).diagnostics = [] ∧
    (runPass raw margin fix decls).decls = decls ∧
    (runPass raw margin fix decls).warnings.length = 1 := by
  obtain ⟨msg, hmsg⟩ := validateCatalog_error_of_bad raw h
  simp [runPass, hmsg]

/-- C5 witness: a malformed category next to a well-formed one. -/
theorem claim_C5_witness :
    (∃ e ∈ [("spacing", (⟨some ["margin"], some [("16px", "--a")]⟩ : RawCategory)),
            ("bad", (⟨some ["margin"], none⟩ : RawCategory))],
      e.2.properties = none ∨ e.2.tokens = none) ∧
    (runPass
        [("spacing", ⟨some ["margin"], some [("16px", "--a")]⟩),
         ("bad", ⟨some ["margin"], none⟩)] 2 false
        [⟨"margin", "16px", ": ", true⟩]).diagnostics = [] ∧
    (runPass
        [("spacing", ⟨some ["margin"], some [("16px", "--a")]⟩),
         ("bad", ⟨some ["margin"], none⟩)] 2 false
        [⟨"margin", "16px", ": ", true⟩]).warnings.length = 1 := by
  refine ⟨by decide, ?_, ?_⟩
  · exact (claim_C5 _ 2 false _ (by decide)).1
  · exact (claim_C5 _ 2 false _ (by decide)).2.2

/-- C9: a catalog that validates to zero categories makes the pass a
silent no-op with no diagnostics and no failure. -/
theorem claim_C9 (raw : List (String × RawCategory)) (margin : ℚ) (fix : Bool)
    (decls : List Decl) (h : validateCatalog raw = .ok []) :
    runPass raw margin fix decls = ⟨[], [], decls⟩ := by
  simp [runPass, h]

/-- C9 witness: the empty catalog. -/
theorem claim_C9_witness :
    validateCatalog [] = .ok [] ∧
    runPass [] 2 false [⟨"margin", "16px", ": ", true⟩] =
      ⟨[], [], [⟨"margin", "16px", ": ", true⟩]⟩ :=
  ⟨rfl, claim_C9 [] 2 false [⟨"margin", "16px", ": ", true⟩] rfl⟩

/-- C1 counterexample: with two categories in catalog order both holding
the literal 16px for the margin property, the engine reports two exact
diagnostics for the same value node, the second sourced from the later
category's token, contradicting the claimed cross-category short-circuit. -/
theorem claim_C1_counterexample :
    (runPass
        [("a", ⟨some ["margin"], some [("16px", "--a")]⟩),
         ("b", ⟨some ["margin"], some [("16px", "--b")]⟩)] 2 false
        [⟨"margin", "16px", ": ", true⟩]).diagnostics =
      [⟨"Design token --a expected for property margin: 16px", 8, 12, "error"⟩,
       ⟨"Design token --b expected for property margin: 16px", 8, 12, "error"⟩] := by
  with_unfolding_all decide

/-- C1 amended: within one category, a value node whose literal is a truthy
key of that category produces exactly the one exact-match diagnostic and no
close-match search is run for it there; the category loop does not break,
and the diagnostics of one declaration are accumulated in catalog category
order with every applicable category contributing its own reports in turn,
so an earlier applicable category that lacks the literal can contribute a
close-match warning for the node before the literal's category reports its
exact match, and categories after a match still evaluate the node and may
add further diagnostics. -/
theorem claim_C1_amended (cat : TokenCategory) (margin : ℚ) (fix : Bool) (pn : String)
    (off : Nat) (node : ValueNode) (t : String) (hw : node.type = "word")
    (hx : (extractPxValue node.value).isSome = true)
    (ht : truthyLookup cat.tokens node.value = some t) :
    evalNode cat margin fix pn off node =
      ⟨if fix && (node.value != t) then t else node.value, fix && (node.value != t),
        [⟨exactMatchMessage t node.value pn, off + node.sourceIndex,
          off + node.sourceIndex + node.value.length, "error"⟩]⟩ ∧
    (∀ (m : ℚ) (f : Bool) (pname : String) (c0 : TokenCategory)
        (rest : List TokenCategory) (d : Decl),
      (processCats m f pname (c0 :: rest) d).2 =
        (processCategory m f pname d c0).2 ++
          (processCats m f pname rest (processCategory m f pname d c0).1).2) ∧
    (runPass
        [("a", ⟨some ["margin"], some [("15px", "--x")]⟩),
         ("b", ⟨some ["margin"], some [("16px", "--b")]⟩)] 2 false
        [⟨"margin", "16px", ": ", true⟩]).diagnostics =
      [⟨"Consider token: --x (\x2715px\x27) for current value \"16px\".", 8, 12, "warning"⟩,
       ⟨"Design token --b expected for property margin: 16px", 8, 12, "error"⟩] := by
  refine ⟨?_, fun m f pname c0 rest d => rfl, ?_⟩
  · obtain ⟨tq, htq⟩ := Option.isSome_iff_exists.1 hx
    obtain ⟨ty, v, idx⟩ := node
    simp only at hw htq ht ⊢
    subst hw
    have hpx : (hasPxUnit v || v == "0") = true := extractPxValue_some_shape v tq htq
    have h2 : ¬(v = "0" ∧ truthyLookup cat.tokens "0" = none) := by
      rintro ⟨rfl, hnone⟩
      rw [hnone] at ht
      exact Option.noConfusion ht
    have h1 : ¬(hasPxUnit v = false ∧ ¬v = "0") := by
      intro hcon
      rcases (Bool.or_eq_true _ _).mp hpx with hh | hh
      · rw [hcon.1] at hh
        exact Bool.noConfusion hh
      · exact hcon.2 (by simpa using hh)
    simp [evalNode, ht, htq, h1, h2]
  · with_unfolding_all decide

/-- C1 amended witness: the exact branch at a concrete node and category. -/
theorem claim_C1_amended_witness :
    (extractPxValue "16px").isSome = true ∧
    truthyLookup [("16px", "--a")] "16px" = some "--a" ∧
    evalNode ⟨["margin"], [("16px", "--a")]⟩ 2 false "margin" 8 ⟨"word", "16px", 0⟩ =
      ⟨"16px", false,
        [⟨exactMatchMessage "--a" "16px" "margin", 8, 12, "error"⟩]⟩ := by
  refine ⟨by with_unfolding_all decide, by decide, ?_⟩
  exact (claim_C1_amended ⟨["margin"], [("16px", "--a")]⟩ 2 false "margin" 8
    ⟨"word", "16px", 0⟩ "--a" rfl (by with_unfolding_all decide) (by decide)).1

/-- C2: the walk visits every node of the parsed value in parse order and
an outcome on one node never suppresses the evaluation of later nodes of
the same declaration against the same category; concretely, a declaration
with two occurrences of a matched literal gets two exact diagnostics. -/
theorem claim_C2 :
    (∀ cat margin fix pn off (xs ys : List ValueNode),
      walkDiags cat margin fix pn off (xs ++ ys) =
        walkDiags cat margin fix pn off xs ++ walkDiags cat margin fix pn off ys) ∧
    (runPass [("a", ⟨some ["margin"], some [("16px", "--a")]⟩)] 2 false
        [⟨"margin", "16px 16px", ": ", true⟩]).diagnostics =
      [⟨"Design token --a expected for property margin: 16px", 8, 12, "error"⟩,
       ⟨"Design token --a expected for property margin: 16px", 13, 17, "error"⟩] := by
  constructor
  · intro cat margin fix pn off xs ys
    simp [walkDiags]
  · with_unfolding_all decide

/-! Development for the fix idempotence claim. -/

end DesignTokenGuard
